import Mathlib

/-!
Verification of the track-and-trace event indexer
(`trackAndTrace/indexer/src/main.rs`): a shallow embedding of the
indexing pipeline — the transactional writer, the retry/reconnect loop,
the event classifier dispatch and the orchestrating stream loop — with
theorems about atomicity, idempotence, checkpoint monotonicity, event
ordering, backoff growth, failure propagation and cooperative shutdown.

Machine integers (block heights, event indices, millisecond delays) are
modelled as `Nat`; transaction hashes are opaque `Nat` identifiers.
-/

namespace Indexer

/-- Concordium contract address: `ContractAddress { index, subindex }`. -/
structure ContractAddress where
  index    : Nat
  subindex : Nat
deriving DecidableEq, Repr

/-- Item status, from the track-and-trace contract state machine. -/
inductive Status where
  | produced
  | inTransit
  | inStore
  | sold
deriving DecidableEq, Repr

/-- Payload of `contract::Event::ItemCreated`. Modelled from the spec:
the contract crate is not part of the analysed sources; §3 gives
`ItemCreated\x7bitem_id, metadata\x7d`. -/
structure ItemCreatedEvent where
  item_id      : Nat
  metadata_url : Option (List Nat)
deriving DecidableEq, Repr

/-- Payload of `contract::Event::ItemStatusChanged`. Modelled from the
spec: §3 gives `ItemStatusChanged\x7bitem_id, new_status, additional_data\x7d`. -/
structure ItemStatusChangedEvent where
  item_id         : Nat
  new_status      : Status
  additional_data : List Nat
deriving DecidableEq, Repr

/-- The closed `contract::Event` variant set. Modelled from the spec:
the contract crate is absent; §3 names the two domain variants, and the
contract additionally emits role-administration events (its tests
exercise `grantRole`/`revokeRole` entrypoints), which the indexer does
not persist. -/
inductive Event where
  | ItemCreated (e : ItemCreatedEvent)
  | ItemStatusChanged (e : ItemStatusChangedEvent)
  | GrantRole (addr role : Nat)
  | RevokeRole (addr role : Nat)
deriving DecidableEq, Repr

/-- A raw on-chain event payload, prior to classification. Modelled from
the spec: §4.3 — raw bytes either decode against exactly one known
schema into an `Event`, or match none of them. -/
inductive RawEvent where
  | valid (e : Event)
  | malformed (bytes : List Nat)
deriving DecidableEq, Repr

/-- `event.parse()` of `main.rs` line 218: decode a raw payload.
Modelled from the spec: §4.3 — an event that matches no known schema is
a decode failure, never silently dropped. -/
def parseEvent : RawEvent → Except String Event
  | .valid e => .ok e
  | .malformed _ => .error "failed to decode event against known schemas"

/-- The singleton `settings` row: persisted contract address plus the
checkpoint `(last_block_height, last_transaction_hash, last_event_index)`.
Modelled from the spec: §3 and §6 (the `db` module is not part of the
analysed sources). -/
structure Checkpoint where
  contract_address  : ContractAddress
  last_block_height : Nat
  last_tx_hash      : Nat
  last_event_index  : Nat
deriving DecidableEq, Repr

/-- `EventKey = (block height, transaction hash, event index)`: the
natural unique identity of an indexed event (spec §3). -/
structure EventKey where
  block_height : Nat
  tx_hash      : Nat
  event_index  : Nat
deriving DecidableEq, Repr

/-- Visible database state: the singleton settings row and the two
append-only event tables, each keyed by `EventKey`. -/
structure DbState where
  settings     : Option Checkpoint
  created_rows : List (EventKey × ItemCreatedEvent)
  status_rows  : List (EventKey × ItemStatusChangedEvent)
deriving DecidableEq, Repr

/-- Whether the `item_created_events` table holds a row under key `k`. -/
def hasCreatedRow (db : DbState) (k : EventKey) : Bool :=
  db.created_rows.any (fun r => r.fst = k)

/-- Whether the `item_status_changed_events` table holds a row under key
`k`. -/
def hasStatusRow (db : DbState) (k : EventKey) : Bool :=
  db.status_rows.any (fun r => r.fst = k)

/-- `Transaction::set_latest_checkpoint`: update the singleton settings
row to the given position. Modelled from the spec: §4.1 `advance` —
updates the singleton row (a row-update affects nothing when the row is
absent). -/
def set_latest_checkpoint (db : DbState) (h tx i : Nat) : DbState :=
  { db with
    settings := db.settings.map fun s =>
      { s with last_block_height := h, last_tx_hash := tx, last_event_index := i } }

/-- `Transaction::insert_item_created_event`: insert-or-ignore of the
event row keyed by `EventKey`. Modelled from the spec: §4.2 — a
duplicate `EventKey` is a no-op, rows are append-only. -/
def insert_item_created_event (db : DbState) (h tx i : Nat)
    (ev : ItemCreatedEvent) : DbState :=
  let k : EventKey := ⟨h, tx, i⟩
  if hasCreatedRow db k then db
  else { db with created_rows := db.created_rows ++ [(k, ev)] }

/-- `Transaction::insert_item_status_changed_event`: insert-or-ignore of
the event row keyed by `EventKey`. Modelled from the spec: §4.2. -/
def insert_item_status_changed_event (db : DbState) (h tx i : Nat)
    (ev : ItemStatusChangedEvent) : DbState :=
  let k : EventKey := ⟨h, tx, i⟩
  if hasStatusRow db k then db
  else { db with status_rows := db.status_rows ++ [(k, ev)] }

/-- Fault-injection points of one writer transaction: opening the
transaction, the checkpoint-advance statement, the event-insert
statement, and the commit. -/
structure FaultSchedule where
  failBegin      : Bool
  failCheckpoint : Bool
  failInsert     : Bool
  failCommit     : Bool
deriving DecidableEq, Repr

/-- The all-success fault schedule. -/
def noFault : FaultSchedule := ⟨false, false, false, false⟩

/-- `db_insert_created_event` (`main.rs` lines 367-402): open a
transaction, advance the checkpoint, insert-or-ignore the event row,
commit. A failure at any injected point surfaces as an error; the
transaction is rolled back, so an error carries no state. -/
def db_insert_created_event (fs : FaultSchedule) (db : DbState)
    (h tx i : Nat) (ev : ItemCreatedEvent) : Except String DbState :=
  if fs.failBegin then .error "Failed to build DB transaction" else
  if fs.failCheckpoint then .error "failed to set latest checkpoint" else
  let t1 := set_latest_checkpoint db h tx i
  if fs.failInsert then .error "failed to insert item created event" else
  let t2 := insert_item_created_event t1 h tx i ev
  if fs.failCommit then .error "Failed to commit DB transaction." else
  .ok t2

/-- `db_insert_item_status_changed_event` (`main.rs` lines 409-444):
same transactional shape for the status-changed table. -/
def db_insert_item_status_changed_event (fs : FaultSchedule) (db : DbState)
    (h tx i : Nat) (ev : ItemStatusChangedEvent) : Except String DbState :=
  if fs.failBegin then .error "Failed to build DB transaction" else
  if fs.failCheckpoint then .error "failed to set latest checkpoint" else
  let t1 := set_latest_checkpoint db h tx i
  if fs.failInsert then .error "failed to insert item status changed event" else
  let t2 := insert_item_status_changed_event t1 h tx i ev
  if fs.failCommit then .error "Failed to commit DB transaction." else
  .ok t2

/-- The database state visible to the caller after a
`db_insert_created_event` call: the committed state on success, the
unchanged pre-state on any failure (rollback). -/
def writerCreatedResult (fs : FaultSchedule) (db : DbState)
    (h tx i : Nat) (ev : ItemCreatedEvent) : DbState × Bool :=
  match db_insert_created_event fs db h tx i ev with
  | .ok s => (s, true)
  | .error _ => (db, false)

/-- The database state visible to the caller after a
`db_insert_item_status_changed_event` call. -/
def writerStatusResult (fs : FaultSchedule) (db : DbState)
    (h tx i : Nat) (ev : ItemStatusChangedEvent) : DbState × Bool :=
  match db_insert_item_status_changed_event fs db h tx i ev with
  | .ok s => (s, true)
  | .error _ => (db, false)

/-- The full effect of one successful created-event writer transaction. -/
def applyCreated (db : DbState) (h tx i : Nat) (ev : ItemCreatedEvent) : DbState :=
  insert_item_created_event (set_latest_checkpoint db h tx i) h tx i ev

/-- The full effect of one successful status-changed writer transaction. -/
def applyStatus (db : DbState) (h tx i : Nat) (ev : ItemStatusChangedEvent) : DbState :=
  insert_item_status_changed_event (set_latest_checkpoint db h tx i) h tx i ev

/-- One possible execution of the per-event retry loop of
`handle_indexing` (`main.rs` lines 230-285 and 294-349), as observed
from outside: either some number `n` of statement-level transient
failures — each followed by a successful reconnect from the pool — and
then a successful insert, or `n + 1` transient failures where the pool
refuses a new connection after the last one. -/
inductive RetryOutcome where
  | succeedsAfter (n : Nat)
  | fatalAfter (n : Nat)
deriving DecidableEq, Repr

/-- The backoff delay slept after the failure that brought the
consecutive-failure counter to `count`:
`500 * (1 <<< min count 8)` milliseconds (`main.rs` lines 259-261). -/
def backoffDelay (count : Nat) : Nat := 500 * 2 ^ min count 8

/-- Observable result of one run of the retry loop: the backoff delays
slept in order, the final value of `reconnecting_db_errors_count`, and
whether the loop ended by propagating a fatal pool error. -/
structure RetryResult where
  delays     : List Nat
  finalCount : Nat
  fatal      : Bool
deriving DecidableEq, Repr

/-- The `while retry` loop when the insert fails `n` more times — each
failure incrementing the counter, sleeping its backoff delay and
successfully reacquiring a pooled connection — and then succeeds,
resetting the counter to 0. -/
def retrySucceeds : Nat → Nat → RetryResult
  | _, 0 => ⟨[], 0, false⟩
  | count, n + 1 =>
      let c := count + 1
      let r := retrySucceeds c n
      ⟨backoffDelay c :: r.delays, r.finalCount, r.fatal⟩

/-- The `while retry` loop when the insert fails `n + 1` more times and,
after the last failure's backoff, the pool refuses a new connection:
the loop ends fatally (`receiver.close(); return Err(e)`). -/
def retryFatal : Nat → Nat → RetryResult
  | count, 0 =>
      let c := count + 1
      ⟨[backoffDelay c], c, true⟩
  | count, n + 1 =>
      let c := count + 1
      let r := retryFatal c n
      ⟨backoffDelay c :: r.delays, r.finalCount, r.fatal⟩

/-- The `while retry` loop of `handle_indexing`, with
`reconnecting_db_errors_count = count` on entry. On a transient insert
failure the counter is incremented, the backoff delay is slept, and a
fresh pooled connection is acquired before retrying; a failed pool
acquisition ends the loop fatally; a successful insert resets the
counter to 0 and ends the loop. -/
def retryLoop (count : Nat) : RetryOutcome → RetryResult
  | .succeedsAfter n => retrySucceeds count n
  | .fatalAfter n => retryFatal count n

/-- Per-event retry schedule: which retry execution the environment
(database and pool) inflicts on the insert of each event key. -/
def RetrySched : Type := EventKey → RetryOutcome

/-- A retry schedule in which no event ever hits a fatal pool failure
(every statement-level failure is followed by a successful reconnect). -/
def NoFatal (sched : RetrySched) : Prop :=
  ∀ k, (retryLoop 0 (sched k)).fatal = false

/-- One `(contract_invoked, entry_point_name, events)` group yielded by
`tx.0.execution_tree.events()` (`main.rs` line 208); the entry point
name is unused by the indexer. -/
structure EventGroup where
  contract_invoked : ContractAddress
  events           : List RawEvent
deriving DecidableEq, Repr

/-- One transaction of a delivered block: its hash and its event groups. -/
structure BlockTx where
  tx_hash : Nat
  groups  : List EventGroup
deriving DecidableEq, Repr

/-- One item of the block stream: `(block, contract_update_infos)`. -/
structure BlockItem where
  block_height : Nat
  txs          : List BlockTx
deriving DecidableEq, Repr

/-- Loop state: the database plus the trace of committed checkpoint
positions (event keys), in commit order. -/
def LoopState : Type := DbState × List EventKey

/-- The error with which `handle_indexing` returns when a fresh pooled
connection cannot be acquired during retry (`main.rs` lines 272-280). -/
def poolErr : String := "Failed to get new database connection from pool"

/-- Processing of one raw event (`main.rs` lines 217-350): parse it —
a decode failure aborts —, then dispatch: an `ItemStatusChanged` or
`ItemCreated` event is inserted through the retry loop (a fatal pool
failure aborts, otherwise the transaction commits and the checkpoint
trace is extended); every other variant is skipped. -/
def processEvent (sched : RetrySched) (h tx i : Nat) (raw : RawEvent)
    (st : LoopState) : Except String LoopState :=
  match parseEvent raw with
  | .error e => .error e
  | .ok (.ItemStatusChanged ev) =>
      if (retryLoop 0 (sched ⟨h, tx, i⟩)).fatal then .error poolErr
      else .ok (applyStatus st.1 h tx i ev, st.2 ++ [⟨h, tx, i⟩])
  | .ok (.ItemCreated ev) =>
      if (retryLoop 0 (sched ⟨h, tx, i⟩)).fatal then .error poolErr
      else .ok (applyCreated st.1 h tx i ev, st.2 ++ [⟨h, tx, i⟩])
  | .ok _ => .ok st

/-- `for (event_index, event) in events.iter().enumerate()`: events of
one group, processed serially with indices counting from `i`. -/
def processEvents (sched : RetrySched) (h tx : Nat) :
    Nat → List RawEvent → LoopState → Except String LoopState
  | _, [], st => .ok st
  | i, raw :: rest, st =>
      match processEvent sched h tx i raw st with
      | .error e => .error e
      | .ok st1 => processEvents sched h tx (i + 1) rest st1

/-- One event group: `anyhow::ensure!` that the invoked contract is the
tracked one (`main.rs` lines 209-215), then its events in index order. -/
def processGroup (sched : RetrySched) (ca : ContractAddress) (h tx : Nat)
    (g : EventGroup) (st : LoopState) : Except String LoopState :=
  if g.contract_invoked = ca then processEvents sched h tx 0 g.events st
  else .error "The event picked up by the indexer is from an unexpected contract"

/-- The groups of one transaction, in order. -/
def processGroups (sched : RetrySched) (ca : ContractAddress) (h tx : Nat) :
    List EventGroup → LoopState → Except String LoopState
  | [], st => .ok st
  | g :: gs, st =>
      match processGroup sched ca h tx g st with
      | .error e => .error e
      | .ok st1 => processGroups sched ca h tx gs st1

/-- The transactions of one block, in delivery order. -/
def processTxs (sched : RetrySched) (ca : ContractAddress) (h : Nat) :
    List BlockTx → LoopState → Except String LoopState
  | [], st => .ok st
  | t :: ts, st =>
      match processGroups sched ca h t.tx_hash t.groups st with
      | .error e => .error e
      | .ok st1 => processTxs sched ca h ts st1

/-- One stream item `(block, contract_update_infos)`. -/
def processBlock (sched : RetrySched) (ca : ContractAddress)
    (b : BlockItem) (st : LoopState) : Except String LoopState :=
  processTxs sched ca b.block_height b.txs st

/-- The `while let Some((block, …)) = receiver.recv()` loop of
`handle_indexing` (`main.rs` lines 201-354): at the head of each
iteration — after receiving a stream item, before processing it — the
shutdown flag is consulted (`flags i` is its value observed at iteration
`i`); a set flag breaks the loop, which then returns `Ok`. A closed
stream also returns `Ok`. -/
def handle_indexing (sched : RetrySched) (ca : ContractAddress)
    (flags : Nat → Bool) : Nat → List BlockItem → LoopState →
    Except String LoopState
  | _, [], st => .ok st
  | i, b :: rest, st =>
      if flags i then .ok st
      else
        match processBlock sched ca b st with
        | .error e => .error e
        | .ok st1 => handle_indexing sched ca flags (i + 1) rest st1

/-- `Database::init_settings` (`main.rs` line 152). Modelled from the
spec: §4.1 — creates the singleton settings row if absent, seeded with
the configured contract address; a no-op otherwise, never overwriting an
existing row. -/
def init_settings (db : DbState) (ca : ContractAddress) (start : Nat) : DbState :=
  match db.settings with
  | some _ => db
  | none => { db with settings := some ⟨ca, start, 0, 0⟩ }

/-- `Database::get_settings` (`main.rs` line 156). Modelled from the
spec: §4.1 — returns the current settings row. -/
def get_settings (db : DbState) : Option Checkpoint := db.settings

/-- `main` after configuration resolution (`main.rs` lines 144-167):
initialise the settings row, read it back, `anyhow::ensure!` that the
persisted contract address equals the configured one — aborting
otherwise — and only then enter `handle_indexing` on the stream. -/
def main_model (ca : ContractAddress) (start : Nat) (sched : RetrySched)
    (flags : Nat → Bool) (blocks : List BlockItem) (db : DbState) :
    Except String LoopState :=
  let db1 := init_settings db ca start
  match get_settings db1 with
  | none => .error "Could not get settings from database"
  | some s =>
      if s.contract_address = ca then handle_indexing sched ca flags 0 blocks (db1, [])
      else .error "Contract address does not match the contract address found in the database"

/-- Whether a parsed event is one the indexer persists. -/
def isIndexable : Event → Bool
  | .ItemCreated _ => true
  | .ItemStatusChanged _ => true
  | _ => false

/-- The event keys the indexer commits for one group's events, in
delivery order, indices counting from `i`. -/
def groupKeys (h tx : Nat) : Nat → List RawEvent → List EventKey
  | _, [] => []
  | i, raw :: rest =>
      (match raw with
        | .valid e => if isIndexable e then [⟨h, tx, i⟩] else []
        | .malformed _ => []) ++ groupKeys h tx (i + 1) rest

/-- The event keys the indexer commits for one transaction. -/
def txKeys (h : Nat) (t : BlockTx) : List EventKey :=
  t.groups.flatMap fun g => groupKeys h t.tx_hash 0 g.events

/-- The event keys the indexer commits for one block. -/
def blockKeys (b : BlockItem) : List EventKey :=
  b.txs.flatMap (txKeys b.block_height)

/-- The event keys the indexer commits for a whole delivered stream, in
delivery order. -/
def streamKeys (blocks : List BlockItem) : List EventKey :=
  blocks.flatMap blockKeys

/-- A raw event that decodes. -/
def rawOk : RawEvent → Bool
  | .valid _ => true
  | .malformed _ => false

/-- A group from the tracked contract whose events all decode. -/
def groupOk (ca : ContractAddress) (g : EventGroup) : Bool :=
  g.contract_invoked = ca && g.events.all rawOk

/-- A block all of whose groups are well-formed. -/
def blockOk (ca : ContractAddress) (b : BlockItem) : Bool :=
  b.txs.all fun t => t.groups.all (groupOk ca)

/-- A stream all of whose blocks are well-formed. -/
def streamOk (ca : ContractAddress) (blocks : List BlockItem) : Bool :=
  blocks.all (blockOk ca)

/-- The prefix of the stream the loop fully processes: the items
delivered strictly before the first head-of-loop observation of a set
shutdown flag. -/
def takeUntilFlag (flags : Nat → Bool) : Nat → List BlockItem → List BlockItem
  | _, [] => []
  | i, b :: rest => if flags i then [] else b :: takeUntilFlag flags (i + 1) rest

/-- Lexicographic order on `(last_block_height, last_event_index)` of
two committed checkpoint positions. -/
def lexLe (a b : EventKey) : Bool :=
  a.block_height < b.block_height ||
    (a.block_height = b.block_height && a.event_index ≤ b.event_index)

/-- Whether a sequence of committed checkpoint positions is
non-decreasing in the lexicographic `(height, event_index)` order. -/
def lexMonotone : List EventKey → Bool
  | [] => true
  | [_] => true
  | a :: b :: rest => lexLe a b && lexMonotone (b :: rest)

/-- The commit trace of a loop run, when it completed without a fatal
error. -/
def traceOf (r : Except String LoopState) : Option (List EventKey) :=
  match r with
  | .ok (_, tr) => some tr
  | .error _ => none

/-- Concrete contract address for witnesses. -/
def caA : ContractAddress := ⟨7, 0⟩

/-- Concrete created-item event payload for witnesses. -/
def evA : ItemCreatedEvent := ⟨0, none⟩

/-- Concrete fault-free retry schedule for witnesses. -/
def schedA : RetrySched := fun _ => .succeedsAfter 0

/-- Concrete initialised database for witnesses. -/
def dbA : DbState := ⟨some ⟨caA, 0, 0, 0⟩, [], []⟩

/-- Concrete stream: one block at height 5 with two transactions — the
first carrying two created-item events, the second one more — so the
per-transaction `enumerate` restarts the event index at 0 mid-block. -/
def blocksA : List BlockItem :=
  [⟨5, [⟨1, [⟨caA, [.valid (.ItemCreated evA), .valid (.ItemCreated evA)]⟩]⟩,
        ⟨2, [⟨caA, [.valid (.ItemCreated evA)]⟩]⟩]⟩]

/-- Concrete settings row persisted for a different contract than `caA`,
for the configuration-mismatch witness. -/
def cpB : Checkpoint := ⟨⟨8, 0⟩, 0, 0, 0⟩

end Indexer

namespace Indexer

/-- C1: atomicity of the transactional writer. For every fault schedule,
a call of `db_insert_created_event` or
`db_insert_item_status_changed_event` either succeeds — and then the
visible state is the full effect, in which the checkpoint is advanced to
the event's position and the event row is present — or fails, and then
the visible state is exactly the pre-state: a fault injected between the
checkpoint advance and the event insert (or anywhere else) never leaves
one persisted without the other. -/
theorem writer_atomic (fs : FaultSchedule) (db : DbState) (h tx i : Nat)
    (evC : ItemCreatedEvent) (evS : ItemStatusChangedEvent) :
    (writerCreatedResult fs db h tx i evC = (applyCreated db h tx i evC, true) ∨
      writerCreatedResult fs db h tx i evC = (db, false)) ∧
    (writerStatusResult fs db h tx i evS = (applyStatus db h tx i evS, true) ∨
      writerStatusResult fs db h tx i evS = (db, false)) ∧
    (applyCreated db h tx i evC).settings = (set_latest_checkpoint db h tx i).settings ∧
    hasCreatedRow (applyCreated db h tx i evC) ⟨h, tx, i⟩ = true ∧
    (applyStatus db h tx i evS).settings = (set_latest_checkpoint db h tx i).settings ∧
    hasStatusRow (applyStatus db h tx i evS) ⟨h, tx, i⟩ = true := by
  refine ⟨?_, ?_, ?_, ?_, ?_, ?_⟩
  · unfold writerCreatedResult db_insert_created_event applyCreated
    by_cases hb : fs.failBegin <;> by_cases hc : fs.failCheckpoint <;>
      by_cases hi : fs.failInsert <;> by_cases hcm : fs.failCommit <;>
      simp [hb, hc, hi, hcm]
  · unfold writerStatusResult db_insert_item_status_changed_event applyStatus
    by_cases hb : fs.failBegin <;> by_cases hc : fs.failCheckpoint <;>
      by_cases hi : fs.failInsert <;> by_cases hcm : fs.failCommit <;>
      simp [hb, hc, hi, hcm]
  · unfold applyCreated insert_item_created_event
    by_cases hr : hasCreatedRow (set_latest_checkpoint db h tx i) ⟨h, tx, i⟩ <;>
      simp [hr]
  · unfold applyCreated insert_item_created_event
    by_cases hr : hasCreatedRow (set_latest_checkpoint db h tx i) ⟨h, tx, i⟩ <;>
      simp [hr, hasCreatedRow] at * <;> simp_all [hasCreatedRow]
  · unfold applyStatus insert_item_status_changed_event
    by_cases hr : hasStatusRow (set_latest_checkpoint db h tx i) ⟨h, tx, i⟩ <;>
      simp [hr]
  · unfold applyStatus insert_item_status_changed_event
    by_cases hr : hasStatusRow (set_latest_checkpoint db h tx i) ⟨h, tx, i⟩ <;>
      simp [hr, hasStatusRow] at * <;> simp_all [hasStatusRow]

/-- Advancing the checkpoint twice to the same position equals advancing
once. -/
theorem set_latest_checkpoint_idem (db : DbState) (h tx i : Nat) :
    set_latest_checkpoint (set_latest_checkpoint db h tx i) h tx i =
      set_latest_checkpoint db h tx i := by
  unfold set_latest_checkpoint
  cases db.settings <;> rfl

/-- After the full created-event effect, the event row under the new key
is present. -/
theorem applyCreated_hasRow (db : DbState) (h tx i : Nat) (ev : ItemCreatedEvent) :
    hasCreatedRow (applyCreated db h tx i ev) ⟨h, tx, i⟩ = true := by
  unfold applyCreated insert_item_created_event
  by_cases hr : hasCreatedRow (set_latest_checkpoint db h tx i) ⟨h, tx, i⟩ <;>
    simp [hr, hasCreatedRow] at * <;> simp_all [hasCreatedRow]

/-- After the full status-changed effect, the event row under the new
key is present. -/
theorem applyStatus_hasRow (db : DbState) (h tx i : Nat) (ev : ItemStatusChangedEvent) :
    hasStatusRow (applyStatus db h tx i ev) ⟨h, tx, i⟩ = true := by
  unfold applyStatus insert_item_status_changed_event
  by_cases hr : hasStatusRow (set_latest_checkpoint db h tx i) ⟨h, tx, i⟩ <;>
    simp [hr, hasStatusRow] at * <;> simp_all [hasStatusRow]

/-- Applying the created-event effect twice with identical arguments
equals applying it once. -/
theorem applyCreated_idem (db : DbState) (h tx i : Nat) (ev : ItemCreatedEvent) :
    applyCreated (applyCreated db h tx i ev) h tx i ev = applyCreated db h tx i ev := by
  unfold applyCreated insert_item_created_event set_latest_checkpoint hasCreatedRow
  by_cases hr : db.created_rows.any
      (fun r => r.fst = ({ block_height := h, tx_hash := tx, event_index := i } : EventKey)) <;>
    cases hs : db.settings <;> simp [hr, List.any_append]

/-- Applying the status-changed effect twice with identical arguments
equals applying it once. -/
theorem applyStatus_idem (db : DbState) (h tx i : Nat) (ev : ItemStatusChangedEvent) :
    applyStatus (applyStatus db h tx i ev) h tx i ev = applyStatus db h tx i ev := by
  unfold applyStatus insert_item_status_changed_event set_latest_checkpoint hasStatusRow
  by_cases hr : db.status_rows.any
      (fun r => r.fst = ({ block_height := h, tx_hash := tx, event_index := i } : EventKey)) <;>
    cases hs : db.settings <;> simp [hr, List.any_append]

/-- A fault-free writer call computes the full effect. -/
theorem writer_created_noFault (db : DbState) (h tx i : Nat) (ev : ItemCreatedEvent) :
    db_insert_created_event noFault db h tx i ev = .ok (applyCreated db h tx i ev) := by
  rfl

/-- A fault-free status writer call computes the full effect. -/
theorem writer_status_noFault (db : DbState) (h tx i : Nat) (ev : ItemStatusChangedEvent) :
    db_insert_item_status_changed_event noFault db h tx i ev =
      .ok (applyStatus db h tx i ev) := by
  rfl

/-- C2: idempotence of the transactional writer. A first insert of
`(height, tx_hash, index, event)` succeeds and yields the full effect;
repeating the identical insert on the resulting state — where the event
row already exists under its `EventKey` — is a no-op success, not an
error, returning the very same stored state. At-least-once delivery thus
has at-most-once visible effect, for both writers. -/
theorem writer_idempotent (db : DbState) (h tx i : Nat)
    (evC : ItemCreatedEvent) (evS : ItemStatusChangedEvent) :
    db_insert_created_event noFault db h tx i evC = .ok (applyCreated db h tx i evC) ∧
    db_insert_created_event noFault (applyCreated db h tx i evC) h tx i evC =
      .ok (applyCreated db h tx i evC) ∧
    hasCreatedRow (applyCreated db h tx i evC) ⟨h, tx, i⟩ = true ∧
    db_insert_item_status_changed_event noFault db h tx i evS =
      .ok (applyStatus db h tx i evS) ∧
    db_insert_item_status_changed_event noFault (applyStatus db h tx i evS) h tx i evS =
      .ok (applyStatus db h tx i evS) ∧
    hasStatusRow (applyStatus db h tx i evS) ⟨h, tx, i⟩ = true := by
  refine ⟨writer_created_noFault db h tx i evC, ?_, applyCreated_hasRow db h tx i evC,
    writer_status_noFault db h tx i evS, ?_, applyStatus_hasRow db h tx i evS⟩
  · rw [writer_created_noFault, applyCreated_idem]
  · rw [writer_status_noFault, applyStatus_idem]

/-- Full characterisation of a retry run that succeeds after `n`
transient failures: the `j`-th delay (1-based) is
`backoffDelay (count + j)`, the counter is reset to 0, and the run is
not fatal. -/
theorem retryLoop_succeeds_eq (count n : Nat) :
    retryLoop count (.succeedsAfter n) =
      ⟨(List.range n).map (fun j => backoffDelay (count + 1 + j)), 0, false⟩ := by
  show retrySucceeds count n = _
  induction n generalizing count with
  | zero => simp [retrySucceeds]
  | succ m ih =>
      rw [retrySucceeds, ih (count + 1)]
      simp [List.range_succ_eq_map, List.map_map, Function.comp_def]
      intro a _
      congr 1
      omega

/-- A retry run that ends with a pool failure after `n + 1` transient
failures: every failure slept its backoff delay and the run is fatal. -/
theorem retryLoop_fatal_eq (count n : Nat) :
    retryLoop count (.fatalAfter n) =
      ⟨(List.range (n + 1)).map (fun j => backoffDelay (count + 1 + j)),
        count + n + 1, true⟩ := by
  show retryFatal count n = _
  induction n generalizing count with
  | zero => simp [retryFatal, List.range_succ]
  | succ m ih =>
      rw [retryFatal, ih (count + 1)]
      simp [List.range_succ_eq_map, List.map_map, Function.comp_def]
      refine ⟨?_, by omega⟩
      intro a _
      congr 1
      omega

/-- C5: bounded exponential backoff. Starting from a reset counter,
after `N ≥ 1` consecutive transient failures with no intervening
success, the delay slept before the next attempt is
`500 * 2 ^ min N 8` milliseconds — base delay 500 ms, cap 8 — the
earlier delays were `500 * 2 ^ min k 8` for `k = 1, …, N`, and the
consecutive-failure counter is 0 again immediately after the one
successful insert that ends the loop. -/
theorem backoff_growth (N : Nat) (hN : 1 ≤ N) :
    (retryLoop 0 (.succeedsAfter N)).delays.getLast? = some (500 * 2 ^ min N 8) ∧
    (retryLoop 0 (.succeedsAfter N)).delays =
      (List.range N).map (fun k => 500 * 2 ^ min (k + 1) 8) ∧
    (retryLoop 0 (.succeedsAfter N)).finalCount = 0 := by
  rw [retryLoop_succeeds_eq]
  refine ⟨?_, ?_, rfl⟩
  · obtain ⟨M, rfl⟩ : ∃ M, N = M + 1 := ⟨N - 1, by omega⟩
    rw [List.getLast?_eq_getElem?]
    simp [backoffDelay]
    rw [Nat.add_comm 1 M]
  · simp [backoffDelay]
    intro a _
    rw [Nat.add_comm 1 a]

/-- Witness for C5 at `N = 3`: delays 1000 ms, 2000 ms, 4000 ms; the
last delay is `500 * 2 ^ min 3 8 = 4000` ms; counter back to 0. -/
theorem backoff_growth_witness :
    1 ≤ 3 ∧
      ((retryLoop 0 (.succeedsAfter 3)).delays.getLast? = some (500 * 2 ^ min 3 8) ∧
      (retryLoop 0 (.succeedsAfter 3)).delays =
        (List.range 3).map (fun k => 500 * 2 ^ min (k + 1) 8) ∧
      (retryLoop 0 (.succeedsAfter 3)).finalCount = 0) :=
  ⟨by decide, backoff_growth 3 (by decide)⟩

/-- The concrete schedule `schedA` never hits a fatal pool failure. -/
theorem schedA_noFatal : NoFatal schedA := fun _ => rfl

/-- Under a non-fatal retry schedule, processing a list of decodable
events succeeds and appends exactly their indexable keys, in order, to
the commit trace. -/
theorem processEvents_wf (sched : RetrySched) (hsch : NoFatal sched) (h tx : Nat) :
    ∀ (evs : List RawEvent) (i : Nat) (db : DbState) (tr : List EventKey),
      evs.all rawOk = true →
      ∃ db', processEvents sched h tx i evs (db, tr) =
        .ok (db', tr ++ groupKeys h tx i evs) := by
  intro evs
  induction evs with
  | nil =>
      intro i db tr _
      exact ⟨db, by simp [processEvents, groupKeys]⟩
  | cons raw rest ih =>
      intro i db tr hall
      rw [List.all_cons, Bool.and_eq_true] at hall
      obtain ⟨hraw, hrest⟩ := hall
      cases raw with
      | malformed bytes => simp [rawOk] at hraw
      | valid e =>
          cases e with
          | ItemCreated ev =>
              obtain ⟨db', hdb'⟩ := ih (i + 1) (applyCreated db h tx i ev)
                (tr ++ [⟨h, tx, i⟩]) hrest
              refine ⟨db', ?_⟩
              simp [processEvents, processEvent, parseEvent, hsch ⟨h, tx, i⟩,
                hdb', groupKeys, isIndexable]
          | ItemStatusChanged ev =>
              obtain ⟨db', hdb'⟩ := ih (i + 1) (applyStatus db h tx i ev)
                (tr ++ [⟨h, tx, i⟩]) hrest
              refine ⟨db', ?_⟩
              simp [processEvents, processEvent, parseEvent, hsch ⟨h, tx, i⟩,
                hdb', groupKeys, isIndexable]
          | GrantRole a r =>
              obtain ⟨db', hdb'⟩ := ih (i + 1) db tr hrest
              refine ⟨db', ?_⟩
              simp [processEvents, processEvent, parseEvent, hdb', groupKeys, isIndexable]
          | RevokeRole a r =>
              obtain ⟨db', hdb'⟩ := ih (i + 1) db tr hrest
              refine ⟨db', ?_⟩
              simp [processEvents, processEvent, parseEvent, hdb', groupKeys, isIndexable]

/-- Under a non-fatal retry schedule, processing the well-formed groups
of one transaction appends exactly their indexable keys, in order. -/
theorem processGroups_wf (sched : RetrySched) (hsch : NoFatal sched)
    (ca : ContractAddress) (h tx : Nat) :
    ∀ (gs : List EventGroup) (db : DbState) (tr : List EventKey),
      gs.all (groupOk ca) = true →
      ∃ db', processGroups sched ca h tx gs (db, tr) =
        .ok (db', tr ++ gs.flatMap fun g => groupKeys h tx 0 g.events) := by
  intro gs
  induction gs with
  | nil =>
      intro db tr _
      exact ⟨db, by simp [processGroups]⟩
  | cons g rest ih =>
      intro db tr hall
      rw [List.all_cons, Bool.and_eq_true] at hall
      obtain ⟨hg, hrest⟩ := hall
      rw [groupOk, Bool.and_eq_true, decide_eq_true_eq] at hg
      obtain ⟨hca, hevs⟩ := hg
      obtain ⟨db1, hdb1⟩ := processEvents_wf sched hsch h tx g.events 0 db tr hevs
      obtain ⟨db', hdb'⟩ := ih db1 (tr ++ groupKeys h tx 0 g.events) hrest
      refine ⟨db', ?_⟩
      simp [processGroups, processGroup, hca, hdb1, hdb']

/-- Under a non-fatal retry schedule, processing the well-formed
transactions of one block appends exactly their indexable keys, in
order. -/
theorem processTxs_wf (sched : RetrySched) (hsch : NoFatal sched)
    (ca : ContractAddress) (h : Nat) :
    ∀ (ts : List BlockTx) (db : DbState) (tr : List EventKey),
      (ts.all fun t => t.groups.all (groupOk ca)) = true →
      ∃ db', processTxs sched ca h ts (db, tr) =
        .ok (db', tr ++ ts.flatMap (txKeys h)) := by
  intro ts
  induction ts with
  | nil =>
      intro db tr _
      exact ⟨db, by simp [processTxs]⟩
  | cons t rest ih =>
      intro db tr hall
      rw [List.all_cons, Bool.and_eq_true] at hall
      obtain ⟨ht, hrest⟩ := hall
      obtain ⟨db1, hdb1⟩ := processGroups_wf sched hsch ca h t.tx_hash t.groups db tr ht
      obtain ⟨db', hdb'⟩ := ih db1 (tr ++ t.groups.flatMap fun g =>
        groupKeys h t.tx_hash 0 g.events) hrest
      refine ⟨db', ?_⟩
      simp [processTxs, hdb1, hdb', txKeys]

/-- Under a non-fatal retry schedule and with the shutdown flag never
set, the loop on a well-formed stream succeeds and its commit trace
extends the given one by exactly the stream's indexable keys, in
delivery order. -/
theorem handle_indexing_wf (sched : RetrySched) (hsch : NoFatal sched)
    (ca : ContractAddress) :
    ∀ (blocks : List BlockItem) (i : Nat) (db : DbState) (tr : List EventKey),
      streamOk ca blocks = true →
      ∃ db', handle_indexing sched ca (fun _ => false) i blocks (db, tr) =
        .ok (db', tr ++ streamKeys blocks) := by
  intro blocks
  induction blocks with
  | nil =>
      intro i db tr _
      exact ⟨db, by simp [handle_indexing, streamKeys]⟩
  | cons b rest ih =>
      intro i db tr hall
      rw [streamOk, List.all_cons, Bool.and_eq_true] at hall
      obtain ⟨hb, hrest⟩ := hall
      obtain ⟨db1, hdb1⟩ := processTxs_wf sched hsch ca b.block_height b.txs db tr hb
      obtain ⟨db', hdb'⟩ := ih (i + 1) db1 (tr ++ b.txs.flatMap (txKeys b.block_height)) hrest
      refine ⟨db', ?_⟩
      simp [handle_indexing, processBlock, hdb1, hdb', streamKeys, blockKeys]

/-- C4: events are committed in the exact order the stream delivers
them. With blocks in delivery order, transactions in order and events in
index order, the loop — being one serial fold that fully commits each
event before touching the next — succeeds on any well-formed stream and
its commit trace is exactly `streamKeys blocks`: the stream's domain
events (the variants the indexer persists), in delivery order, none
reordered, none skipped. -/
theorem events_committed_in_delivery_order (sched : RetrySched)
    (ca : ContractAddress) (blocks : List BlockItem) (db : DbState)
    (hwf : streamOk ca blocks = true) (hsch : NoFatal sched) :
    ∃ db', handle_indexing sched ca (fun _ => false) 0 blocks (db, []) =
      .ok (db', streamKeys blocks) := by
  obtain ⟨db', hdb'⟩ := handle_indexing_wf sched hsch ca blocks 0 db [] hwf
  exact ⟨db', by simpa using hdb'⟩

/-- Witness for C4 on the concrete stream `blocksA`. -/
theorem events_committed_in_delivery_order_witness :
    streamOk caA blocksA = true ∧ NoFatal schedA ∧
      ∃ db', handle_indexing schedA caA (fun _ => false) 0 blocksA (dbA, []) =
        .ok (db', streamKeys blocksA) :=
  ⟨by decide, schedA_noFatal,
    events_committed_in_delivery_order schedA caA blocksA dbA (by decide) schedA_noFatal⟩

/-- C3 fails as stated: on the concrete stream `blocksA` — one block at
height 5 holding two transactions with events — the loop commits the
checkpoint sequence `(5,1,0), (5,1,1), (5,2,0)`, whose
`(last_block_height, last_event_index)` projection `(5,0), (5,1), (5,0)`
decreases lexicographically at the last step: the per-transaction
`enumerate` restarts the event index at 0 within the same block. -/
theorem checkpoint_lex_counterexample :
    traceOf (handle_indexing schedA caA (fun _ => false) 0 blocksA (dbA, [])) =
      some [⟨5, 1, 0⟩, ⟨5, 1, 1⟩, ⟨5, 2, 0⟩] ∧
    lexMonotone [⟨5, 1, 0⟩, ⟨5, 1, 1⟩, ⟨5, 2, 0⟩] = false := by
  constructor
  · decide
  · decide

/-- Every key committed for one group carries that group's block height. -/
theorem groupKeys_height (h tx : Nat) :
    ∀ (evs : List RawEvent) (i : Nat) (k : EventKey),
      k ∈ groupKeys h tx i evs → k.block_height = h := by
  intro evs
  induction evs with
  | nil => intro i k hk; simp [groupKeys] at hk
  | cons raw rest ih =>
      intro i k hk
      simp only [groupKeys] at hk
      rw [List.mem_append] at hk
      cases hk with
      | inl h1 =>
          cases raw with
          | valid e =>
              by_cases hi : isIndexable e <;> simp [hi] at h1
              rw [h1]
          | malformed b => simp at h1
      | inr h2 => exact ih (i + 1) k h2

/-- Every key committed for one block carries that block's height. -/
theorem blockKeys_height (b : BlockItem) :
    ∀ k ∈ blockKeys b, k.block_height = b.block_height := by
  intro k hk
  rw [blockKeys, List.mem_flatMap] at hk
  obtain ⟨t, _, hk2⟩ := hk
  rw [txKeys, List.mem_flatMap] at hk2
  obtain ⟨g, _, hk3⟩ := hk2
  exact groupKeys_height _ _ g.events 0 k hk3

/-- If the stream delivers blocks in non-decreasing height order, the
block heights of the committed keys are non-decreasing. -/
theorem streamKeys_heights_sorted :
    ∀ blocks : List BlockItem,
      (blocks.map (fun b => b.block_height)).Sorted (· ≤ ·) →
      ((streamKeys blocks).map (fun k => k.block_height)).Sorted (· ≤ ·) := by
  intro blocks
  induction blocks with
  | nil => intro _; simp [streamKeys]
  | cons b rest ih =>
      intro hsort
      rw [List.map_cons, List.sorted_cons] at hsort
      obtain ⟨hhead, htail⟩ := hsort
      rw [streamKeys, List.flatMap_cons, List.map_append]
      refine List.pairwise_append.2 ⟨?_, ih htail, ?_⟩
      · apply List.pairwise_of_forall_mem_list
        intro x hx y hy
        rw [List.mem_map] at hx hy
        obtain ⟨k1, hk1, rfl⟩ := hx
        obtain ⟨k2, hk2, rfl⟩ := hy
        rw [blockKeys_height b k1 hk1, blockKeys_height b k2 hk2]
      · intro x hx y hy
        rw [List.mem_map] at hx
        obtain ⟨k1, hk1, rfl⟩ := hx
        rw [List.mem_map] at hy
        obtain ⟨k2, hk2, rfl⟩ := hy
        rw [List.mem_flatMap] at hk2
        obtain ⟨c, hc, hk2c⟩ := hk2
        rw [blockKeys_height b k1 hk1, blockKeys_height c k2 hk2c]
        exact hhead _ (List.mem_map_of_mem _ hc)

/-- C3 amended: whenever the stream delivers blocks in non-decreasing
height order, the `last_block_height` component of the committed
checkpoint sequence is non-decreasing over the record's lifetime; the
full pair `(last_block_height, last_event_index)` is not monotone
because the event index restarts at 0 for each transaction's event group
within a block (see the counterexample). -/
theorem checkpoint_heights_monotone (sched : RetrySched) (ca : ContractAddress)
    (blocks : List BlockItem) (db : DbState)
    (hwf : streamOk ca blocks = true) (hsch : NoFatal sched)
    (hsort : (blocks.map (fun b => b.block_height)).Sorted (· ≤ ·)) :
    ∃ db', handle_indexing sched ca (fun _ => false) 0 blocks (db, []) =
        .ok (db', streamKeys blocks) ∧
      ((streamKeys blocks).map (fun k => k.block_height)).Sorted (· ≤ ·) := by
  obtain ⟨db', hdb'⟩ := handle_indexing_wf sched hsch ca blocks 0 db [] hwf
  exact ⟨db', by simpa using hdb', streamKeys_heights_sorted blocks hsort⟩

/-- Witness for the amended C3 on the concrete stream `blocksA`. -/
theorem checkpoint_heights_monotone_witness :
    streamOk caA blocksA = true ∧ NoFatal schedA ∧
      (blocksA.map (fun b => b.block_height)).Sorted (· ≤ ·) ∧
      ∃ db', handle_indexing schedA caA (fun _ => false) 0 blocksA (dbA, []) =
          .ok (db', streamKeys blocksA) ∧
        ((streamKeys blocksA).map (fun k => k.block_height)).Sorted (· ≤ ·) :=
  ⟨by decide, schedA_noFatal, by decide,
    checkpoint_heights_monotone schedA caA blocksA dbA (by decide) schedA_noFatal
      (by decide)⟩

/-- C6: configuration-mismatch fail-fast. When the persisted settings
row names a contract address different from the configured one, startup
returns the fatal mismatch error for every possible stream — before any
stream item is consumed, so no event is classified, inserted or
checkpointed. -/
theorem contract_mismatch_fatal (ca : ContractAddress) (start : Nat)
    (sched : RetrySched) (flags : Nat → Bool) (blocks : List BlockItem)
    (cp : Checkpoint) (rowsC : List (EventKey × ItemCreatedEvent))
    (rowsS : List (EventKey × ItemStatusChangedEvent))
    (hne : cp.contract_address ≠ ca) :
    main_model ca start sched flags blocks ⟨some cp, rowsC, rowsS⟩ =
      .error "Contract address does not match the contract address found in the database" := by
  simp [main_model, init_settings, get_settings, hne]

/-- Witness for C6: a store initialised for contract `(8,0)` aborts a
pipeline configured for contract `(7,0)`. -/
theorem contract_mismatch_fatal_witness :
    cpB.contract_address ≠ caA ∧
      main_model caA 0 schedA (fun _ => false) blocksA ⟨some cpB, [], []⟩ =
        .error "Contract address does not match the contract address found in the database" :=
  ⟨by decide,
    contract_mismatch_fatal caA 0 schedA (fun _ => false) blocksA cpB [] [] (by decide)⟩

/-- C7: statement-level transient storage errors are retried without
bound and never propagate — a retry run with any finite number of
transient failures whose reconnects succeed is never fatal — while a
failed pool acquisition is fatal: its retry run ends fatally, and a
stream whose next event's insert hits it makes `handle_indexing` return
the pool error. -/
theorem transient_retried_pool_fatal :
    (∀ n count, (retryLoop count (.succeedsAfter n)).fatal = false) ∧
    (∀ n count, (retryLoop count (.fatalAfter n)).fatal = true) ∧
    (∀ (sched : RetrySched) (ca : ContractAddress) (h tx n : Nat)
      (ev : ItemCreatedEvent) (evs : List RawEvent) (gs : List EventGroup)
      (ts : List BlockTx) (rest : List BlockItem) (db : DbState)
      (tr : List EventKey),
      sched ⟨h, tx, 0⟩ = .fatalAfter n →
      handle_indexing sched ca (fun _ => false) 0
        (⟨h, ⟨tx, ⟨ca, .valid (.ItemCreated ev) :: evs⟩ :: gs⟩ :: ts⟩ :: rest)
        (db, tr) = .error poolErr) := by
  refine ⟨?_, ?_, ?_⟩
  · intro n count; rw [retryLoop_succeeds_eq]
  · intro n count; rw [retryLoop_fatal_eq]
  · intro sched ca h tx n ev evs gs ts rest db tr hsched
    simp [handle_indexing, processBlock, processTxs, processGroups, processGroup,
      processEvents, processEvent, parseEvent, hsched, retryLoop_fatal_eq]

/-- Witness for C7: with a schedule whose reconnect fails after three
transient failures on the one delivered event, the loop ends with the
fatal pool error. -/
theorem transient_retried_pool_fatal_witness :
    handle_indexing (fun _ => .fatalAfter 2) caA (fun _ => false) 0
      [⟨5, [⟨1, [⟨caA, [.valid (.ItemCreated evA)]⟩]⟩]⟩] (dbA, []) =
      .error poolErr :=
  transient_retried_pool_fatal.2.2 (fun _ => .fatalAfter 2) caA 5 1 2 evA
    [] [] [] [] dbA [] rfl

/-- With the shutdown flag never set, the loop's result does not depend
on the iteration counter. -/
theorem handle_indexing_ff_index (sched : RetrySched) (ca : ContractAddress) :
    ∀ (blocks : List BlockItem) (i j : Nat) (st : LoopState),
      handle_indexing sched ca (fun _ => false) i blocks st =
        handle_indexing sched ca (fun _ => false) j blocks st := by
  intro blocks
  induction blocks with
  | nil => intro i j st; rfl
  | cons b rest ih =>
      intro i j st
      simp only [handle_indexing, Bool.false_eq_true, if_false]
      cases hpb : processBlock sched ca b st with
      | error e => rfl
      | ok st1 => exact ih (i + 1) (j + 1) st1

/-- With the shutdown flag never set, a concatenated stream is processed
sequentially: errors of the first part propagate, success continues into
the second part. -/
theorem handle_indexing_ff_append (sched : RetrySched) (ca : ContractAddress) :
    ∀ (l1 l2 : List BlockItem) (i : Nat) (st : LoopState),
      handle_indexing sched ca (fun _ => false) i (l1 ++ l2) st =
        match handle_indexing sched ca (fun _ => false) i l1 st with
        | .error e => .error e
        | .ok st1 => handle_indexing sched ca (fun _ => false) 0 l2 st1 := by
  intro l1
  induction l1 with
  | nil =>
      intro l2 i st
      simp only [List.nil_append, handle_indexing]
      exact handle_indexing_ff_index sched ca l2 i 0 st
  | cons b rest ih =>
      intro l2 i st
      simp only [List.cons_append, handle_indexing, Bool.false_eq_true, if_false]
      cases hpb : processBlock sched ca b st with
      | error e => rfl
      | ok st1 => exact ih l2 (i + 1) st1

/-- C8: a raw event matching no known schema is a decode failure:
classifying it yields an error — not a silent skip — and the indexing
loop, having fully committed any well-formed prefix of the stream,
aborts with that error the moment the malformed event is reached,
regardless of what follows it. -/
theorem malformed_event_aborts (sched : RetrySched) (ca : ContractAddress)
    (pre : List BlockItem) (h tx : Nat) (bytes : List Nat) (evs : List RawEvent)
    (gs : List EventGroup) (ts : List BlockTx) (rest : List BlockItem)
    (db : DbState) (i : Nat) (st : LoopState)
    (hwf : streamOk ca pre = true) (hsch : NoFatal sched) :
    processEvent sched h tx i (.malformed bytes) st =
      .error "failed to decode event against known schemas" ∧
    handle_indexing sched ca (fun _ => false) 0
      (pre ++ ⟨h, ⟨tx, ⟨ca, .malformed bytes :: evs⟩ :: gs⟩ :: ts⟩ :: rest)
      (db, []) = .error "failed to decode event against known schemas" := by
  constructor
  · rfl
  · rw [handle_indexing_ff_append]
    obtain ⟨db1, hdb1⟩ := handle_indexing_wf sched hsch ca pre 0 db [] hwf
    rw [hdb1]
    simp [handle_indexing, processBlock, processTxs, processGroups, processGroup,
      processEvents, processEvent, parseEvent]

/-- Witness for C8: after the well-formed stream `blocksA`, a block
whose first event is malformed aborts the loop with the decode error. -/
theorem malformed_event_aborts_witness :
    streamOk caA blocksA = true ∧ NoFatal schedA ∧
      (processEvent schedA 6 3 0 (.malformed [9]) (dbA, []) =
        .error "failed to decode event against known schemas" ∧
      handle_indexing schedA caA (fun _ => false) 0
        (blocksA ++ ⟨6, ⟨3, ⟨caA, .malformed [9] :: []⟩ :: []⟩ :: []⟩ :: [])
        (dbA, []) = .error "failed to decode event against known schemas") :=
  ⟨by decide, schedA_noFatal,
    malformed_event_aborts schedA caA blocksA 6 3 [9] [] [] [] [] dbA 0 (dbA, [])
      (by decide) schedA_noFatal⟩

/-- C9: cooperative, checkpoint-respecting shutdown. The run of the loop
under any shutdown-flag history equals the run, without cancellation, of
exactly the prefix of stream items delivered before the first
head-of-loop observation of a set flag: the flag is consulted only
between top-level stream items — after receiving a block, before
processing it — so every storage transaction that has begun belongs to a
fully processed item and runs to completion, never abandoned part-way. -/
theorem cancellation_between_items (sched : RetrySched) (ca : ContractAddress)
    (flags : Nat → Bool) :
    ∀ (blocks : List BlockItem) (i : Nat) (st : LoopState),
      handle_indexing sched ca flags i blocks st =
        handle_indexing sched ca (fun _ => false) i (takeUntilFlag flags i blocks) st := by
  intro blocks
  induction blocks with
  | nil => intro i st; rfl
  | cons b rest ih =>
      intro i st
      by_cases hf : flags i
      · simp [handle_indexing, takeUntilFlag, hf]
      · simp only [handle_indexing, takeUntilFlag, hf, Bool.false_eq_true, if_false]
        cases hpb : processBlock sched ca b st with
        | error e => rfl
        | ok st1 => exact ih (i + 1) st1

/-- C10: parsed events of any variant other than `ItemCreated` and
`ItemStatusChanged` are silently skipped: processing one performs no
database insert, no checkpoint advance, adds nothing to the commit
trace and raises no error — the loop state is returned unchanged and
processing continues with the next event of the same transaction at the
next index. -/
theorem other_variant_events_skipped (sched : RetrySched) (h tx i : Nat)
    (a r : Nat) (rest : List RawEvent) (st : LoopState) :
    processEvent sched h tx i (.valid (.GrantRole a r)) st = .ok st ∧
    processEvent sched h tx i (.valid (.RevokeRole a r)) st = .ok st ∧
    processEvents sched h tx i (.valid (.GrantRole a r) :: rest) st =
      processEvents sched h tx (i + 1) rest st ∧
    processEvents sched h tx i (.valid (.RevokeRole a r) :: rest) st =
      processEvents sched h tx (i + 1) rest st :=
  ⟨rfl, rfl, rfl, rfl⟩

end Indexer
